/-
  Verification development for analyze_valorant.py.

  This file shallowly embeds the pure core of the program:
    - shrink_events            (event downsampling)
    - extract_top_level_json   (first top-level brace block)
    - find_all_top_level_json  (all top-level brace blocks)
    - wrap_if_needed           (report-to-wrapper normalization)
    - naive_json_repair        (quote/bracket balancing repair)
    - try_parse_or_coerce      (the four-stage recovery ladder)
    - call_gemini_json_with_retry (modelled as a transition system over
      externally supplied per-attempt outcomes)

  Python's json.loads is embedded as an executable recursive-descent
  parser over Char lists (JSON with Python's NaN/Infinity extensions,
  strict rejection of unescaped control characters, objects built with
  dict semantics: last duplicate key wins, first position kept).
  Modelling notes:
    - machine-level details irrelevant to the claims (float representation
      of parsed numbers, surrogate pairs in \u escapes, non-ASCII
      whitespace in str.strip) are represented by a syntactic
      mantissa/exponent pair, single-scalar \u escapes, and the ASCII
      whitespace set respectively.
-/
import Mathlib

namespace ValCoach

/-- JSON values as produced by Python's json.loads.  Numbers are kept
syntactically as mantissa * 10 ^ exp10; NaN and +-Infinity are the
Python extensions accepted by json.loads. -/
inductive JVal where
  | jnull : JVal
  | jbool : Bool → JVal
  | jnum : Int → Int → JVal
  | jstr : String → JVal
  | jnan : JVal
  | jinf : Bool → JVal
  | jarr : List JVal → JVal
  | jobj : List (String × JVal) → JVal

/-- The whitespace characters skipped by Python's json decoder. -/
def jsonWs (c : Char) : Bool :=
  c == ' ' || c == '\t' || c == '\n' || c == '\r'

/-- Skip json whitespace. -/
def jsonSkipWs (l : List Char) : List Char :=
  l.dropWhile jsonWs

/-- Hex digit value. -/
def hexVal (c : Char) : Option Nat :=
  if '0' ≤ c ∧ c ≤ '9' then some (c.toNat - '0'.toNat)
  else if 'a' ≤ c ∧ c ≤ 'f' then some (c.toNat - 'a'.toNat + 10)
  else if 'A' ≤ c ∧ c ≤ 'F' then some (c.toNat - 'A'.toNat + 10)
  else none

/-- Decimal digit value. -/
def digitVal (c : Char) : Option Nat :=
  if '0' ≤ c ∧ c ≤ '9' then some (c.toNat - '0'.toNat) else none

/-- Take a maximal run of decimal digits. -/
def takeDigits : List Char → List Nat × List Char
  | [] => ([], [])
  | c :: r =>
    match digitVal c with
    | some d => ((d :: (takeDigits r).1), (takeDigits r).2)
    | none => ([], c :: r)

/-- Value of a digit run. -/
def digitsToNat (ds : List Nat) : Nat :=
  ds.foldl (fun a d => a * 10 + d) 0

/-- Body of a JSON string literal, after the opening quote.  Mirrors the
strict-mode decoder: unescaped control characters are rejected, the
escapes are the eight JSON escapes plus \uXXXX. -/
def parseStrBody : List Char → List Char → Option (String × List Char)
  | [], _ => none
  | c :: r, acc =>
    if c = '"' then some (String.mk acc, r)
    else if c = '\\' then
      match r with
      | [] => none
      | e :: r2 =>
        if e = '"' then parseStrBody r2 (acc ++ ['"'])
        else if e = '\\' then parseStrBody r2 (acc ++ ['\\'])
        else if e = '/' then parseStrBody r2 (acc ++ ['/'])
        else if e = 'b' then parseStrBody r2 (acc ++ ['\x08'])
        else if e = 'f' then parseStrBody r2 (acc ++ ['\x0c'])
        else if e = 'n' then parseStrBody r2 (acc ++ ['\n'])
        else if e = 'r' then parseStrBody r2 (acc ++ ['\r'])
        else if e = 't' then parseStrBody r2 (acc ++ ['\t'])
        else if e = 'u' then
          match r2 with
          | h1 :: h2 :: h3 :: h4 :: r3 =>
            match hexVal h1, hexVal h2, hexVal h3, hexVal h4 with
            | some a, some b, some c3, some d =>
              parseStrBody r3 (acc ++ [Char.ofNat (((a * 16 + b) * 16 + c3) * 16 + d)])
            | _, _, _, _ => none
          | _ => none
        else none
    else if c.toNat < 32 then none
    else parseStrBody r (acc ++ [c])

/-- Exponent tail of a number: optional sign then at least one digit.
Without a digit the regex does not include the e/E, so parsing resumes
at `fallback` (the input including the e/E). -/
def parseExpTail (r3 : List Char) (fallback : List Char) : Int × List Char :=
  match r3 with
  | '+' :: r4 =>
    match takeDigits r4 with
    | ([], _) => (0, fallback)
    | (ds, rest) => ((digitsToNat ds : Int), rest)
  | '-' :: r4 =>
    match takeDigits r4 with
    | ([], _) => (0, fallback)
    | (ds, rest) => (-(digitsToNat ds : Int), rest)
  | _ =>
    match takeDigits r3 with
    | ([], _) => (0, fallback)
    | (ds, rest) => ((digitsToNat ds : Int), rest)

/-- JSON number, per the decoder's NUMBER_RE:
(-?(0|[1-9]d*))(.d+)?([eE][-+]?d+)? . -/
def parseNum (l : List Char) : Option (JVal × List Char) :=
  let sp : Bool × List Char :=
    match l with
    | '-' :: r => (true, r)
    | _ => (false, l)
  match sp.2 with
  | [] => none
  | c :: r =>
    match digitVal c with
    | none => none
    | some d =>
      let ip : List Nat × List Char :=
        if c = '0' then ([0], r)
        else ((d :: (takeDigits r).1), (takeDigits r).2)
      let fp : List Nat × List Char :=
        match ip.2 with
        | '.' :: r2 =>
          match takeDigits r2 with
          | ([], _) => ([], ip.2)
          | (ds, rest) => (ds, rest)
        | _ => ([], ip.2)
      let ep : Int × List Char :=
        match fp.2 with
        | 'e' :: r3 => parseExpTail r3 fp.2
        | 'E' :: r3 => parseExpTail r3 fp.2
        | _ => (0, fp.2)
      let mant0 : Nat := digitsToNat (ip.1 ++ fp.1)
      let mant : Int := if sp.1 then -(mant0 : Int) else (mant0 : Int)
      some (JVal.jnum mant (ep.1 - (fp.1.length : Int)), ep.2)

/-- Insert a key/value pair with Python dict semantics: an existing key
keeps its position and gets the new value, a new key is appended. -/
def insertKV (kvs : List (String × JVal)) (k : String) (v : JVal) :
    List (String × JVal) :=
  if kvs.any (fun p => p.1 == k) then
    kvs.map (fun p => if p.1 == k then (k, v) else p)
  else kvs ++ [(k, v)]

mutual

/-- One JSON value starting at the head of the input (no leading
whitespace).  Fuel bounds the recursion depth; json_loads supplies
enough fuel for its input. -/
def parseVal : Nat → List Char → Option (JVal × List Char)
  | 0, _ => none
  | fuel + 1, l =>
    match l with
    | [] => none
    | 'n' :: 'u' :: 'l' :: 'l' :: r => some (JVal.jnull, r)
    | 't' :: 'r' :: 'u' :: 'e' :: r => some (JVal.jbool true, r)
    | 'f' :: 'a' :: 'l' :: 's' :: 'e' :: r => some (JVal.jbool false, r)
    | 'N' :: 'a' :: 'N' :: r => some (JVal.jnan, r)
    | 'I' :: 'n' :: 'f' :: 'i' :: 'n' :: 'i' :: 't' :: 'y' :: r =>
      some (JVal.jinf false, r)
    | '-' :: 'I' :: 'n' :: 'f' :: 'i' :: 'n' :: 'i' :: 't' :: 'y' :: r =>
      some (JVal.jinf true, r)
    | '"' :: r =>
      match parseStrBody r [] with
      | some (s, rest) => some (JVal.jstr s, rest)
      | none => none
    | '[' :: r =>
      match jsonSkipWs r with
      | ']' :: r2 => some (JVal.jarr [], r2)
      | r' => parseArrItems fuel r' []
    | '{' :: r =>
      match jsonSkipWs r with
      | '}' :: r2 => some (JVal.jobj [], r2)
      | r' => parseObjItems fuel r' []
    | _ => parseNum l

/-- Comma-separated array items, ending at the closing bracket. -/
def parseArrItems : Nat → List Char → List JVal → Option (JVal × List Char)
  | 0, _, _ => none
  | fuel + 1, l, acc =>
    match parseVal fuel l with
    | none => none
    | some (v, rest) =>
      match jsonSkipWs rest with
      | ',' :: r2 => parseArrItems fuel (jsonSkipWs r2) (acc ++ [v])
      | ']' :: r2 => some (JVal.jarr (acc ++ [v]), r2)
      | _ => none

/-- Comma-separated object members, ending at the closing brace.  Keys
must be string literals; members accumulate with dict semantics. -/
def parseObjItems : Nat → List Char → List (String × JVal) →
    Option (JVal × List Char)
  | 0, _, _ => none
  | fuel + 1, l, acc =>
    match l with
    | '"' :: r =>
      match parseStrBody r [] with
      | none => none
      | some (k, rest) =>
        match jsonSkipWs rest with
        | ':' :: r2 =>
          match parseVal fuel (jsonSkipWs r2) with
          | none => none
          | some (v, rest2) =>
            match jsonSkipWs rest2 with
            | ',' :: r3 => parseObjItems fuel (jsonSkipWs r3) (insertKV acc k v)
            | '}' :: r3 => some (JVal.jobj (insertKV acc k v), r3)
            | _ => none
        | _ => none
    | _ => none

end

/-- Embedding of Python's json.loads: skip leading whitespace, parse one
value, require only whitespace to remain. -/
def json_loads (s : String) : Option JVal :=
  match parseVal (s.data.length + 1) (jsonSkipWs s.data) with
  | some (v, rest) => if jsonSkipWs rest = [] then some v else none
  | none => none

/-- ASCII whitespace, as stripped by str.strip() and matched by the
regex class \s (the repository's inputs are ASCII). -/
def pyIsWs (c : Char) : Bool :=
  c == ' ' || c == '\t' || c == '\n' || c == '\r' || c == '\x0b' || c == '\x0c'

/-- Python str.strip(): drop leading and trailing whitespace. -/
def pyStrip (s : String) : String :=
  String.mk (((s.data.dropWhile pyIsWs).reverse.dropWhile pyIsWs).reverse)

/-- The backtick character (kept out of literals by writing its code). -/
def tickChar : Char := Char.ofNat 96

/-- One leading-anchored substitution of the code-fence opener:
re.sub of caret-three-ticks (json)? ws*  with the empty string. -/
def stripLeadFence (s : String) : String :=
  match s.data with
  | c1 :: c2 :: c3 :: rest =>
    if c1 = tickChar ∧ c2 = tickChar ∧ c3 = tickChar then
      let rest2 :=
        match rest with
        | 'j' :: 's' :: 'o' :: 'n' :: r2 => r2
        | _ => rest
      String.mk (rest2.dropWhile pyIsWs)
    else s
  | _ => s

/-- One trailing-anchored substitution of the code-fence closer:
re.sub of ws* three-ticks dollar with the empty string. -/
def stripTrailFence (s : String) : String :=
  match s.data.reverse with
  | c1 :: c2 :: c3 :: rest =>
    if c1 = tickChar ∧ c2 = tickChar ∧ c3 = tickChar then
      String.mk ((rest.dropWhile pyIsWs).reverse)
    else s
  | _ => s

/-- Scan for the end of the first brace block.  Called on the characters
after the first opening brace, with depth 1 and that brace accumulated;
the Python loop decrements on every closing brace and stops when the
depth returns to zero (starting at a brace, the depth stays >= 1 until
then, which the Nat depth here reflects). -/
def scanFirstBlock : List Char → Nat → List Char → Option (List Char)
  | [], _, _ => none
  | c :: rest, depth, acc =>
    if c = '{' then scanFirstBlock rest (depth + 1) (acc ++ [c])
    else if c = '}' then
      if depth = 1 then some (acc ++ [c])
      else scanFirstBlock rest (depth - 1) (acc ++ [c])
    else scanFirstBlock rest depth (acc ++ [c])

/-- extract_top_level_json: strip, remove one leading and one trailing
code fence, and cut out the first top-level brace block; with no brace
or an unclosed block, return the processed text unchanged. -/
def extract_top_level_json (s : String) : String :=
  if s.data = [] then s
  else
    let s2 := stripTrailFence (stripLeadFence (pyStrip s))
    match s2.data.dropWhile (fun c => !(c == '{')) with
    | [] => s2
    | _ :: tl =>
      match scanFirstBlock tl 1 ['{'] with
      | some block => String.mk block
      | none => s2

/-- Global substitution of three-ticks-(json)? with the empty string,
scanning left to right over non-overlapping matches. -/
def removeTicksF : Nat → List Char → List Char
  | 0, l => l
  | _ + 1, [] => []
  | fuel + 1, c1 :: rest1 =>
    if c1 = tickChar then
      match rest1 with
      | c2 :: c3 :: 'j' :: 's' :: 'o' :: 'n' :: tl2 =>
        if c2 = tickChar ∧ c3 = tickChar then removeTicksF fuel tl2
        else c1 :: removeTicksF fuel rest1
      | c2 :: c3 :: tl =>
        if c2 = tickChar ∧ c3 = tickChar then removeTicksF fuel tl
        else c1 :: removeTicksF fuel rest1
      | _ => c1 :: removeTicksF fuel rest1
    else c1 :: removeTicksF fuel rest1

/-- Global substitution of three-ticks-(json)? with the empty string,
scanning left to right over non-overlapping matches.  The fuel (the
input length, consumed at least one character per step) makes the
recursion structural. -/
def removeTicks (l : List Char) : List Char := removeTicksF l.length l

/-- str.replace of three ticks with the empty string (the second,
fence-removal pass of find_all_top_level_json). -/
def removeTicksOnlyF : Nat → List Char → List Char
  | 0, l => l
  | _ + 1, [] => []
  | fuel + 1, c1 :: rest1 =>
    if c1 = tickChar then
      match rest1 with
      | c2 :: c3 :: tl =>
        if c2 = tickChar ∧ c3 = tickChar then removeTicksOnlyF fuel tl
        else c1 :: removeTicksOnlyF fuel rest1
      | _ => c1 :: removeTicksOnlyF fuel rest1
    else c1 :: removeTicksOnlyF fuel rest1

/-- str.replace of three ticks with the empty string, fuelled like
removeTicks. -/
def removeTicksOnly (l : List Char) : List Char := removeTicksOnlyF l.length l

/-- State of the find_all_top_level_json scan.  curr holds the
characters of the currently open span (the source tracks the span by
its start index; the state here carries the same span's characters,
which is what the recorded slice contains); out holds completed spans
in reverse order. -/
structure ScanState where
  depth : Nat
  curr : List Char
  out : List String

/-- One character of the find_all scan: an opening brace at depth 0
starts a span, a closing brace at depth 0 is ignored, a closing brace
at depth 1 completes the span. -/
def scanStep (st : ScanState) (c : Char) : ScanState :=
  if c = '{' then
    { depth := st.depth + 1
      curr := if st.depth = 0 then ['{'] else st.curr ++ ['{']
      out := st.out }
  else if c = '}' then
    if st.depth = 0 then st
    else if st.depth = 1 then
      { depth := 0, curr := [], out := String.mk (st.curr ++ ['}']) :: st.out }
    else { depth := st.depth - 1, curr := st.curr ++ ['}'], out := st.out }
  else if st.depth = 0 then st
  else { st with curr := st.curr ++ [c] }

/-- The initial scan state. -/
def initScan : ScanState := { depth := 0, curr := [], out := [] }

/-- find_all_top_level_json: strip, delete all code-fence markers, and
collect every complete top-level brace block in order. -/
def find_all_top_level_json (s : String) : List String :=
  ((removeTicksOnly (removeTicks (pyStrip s).data)).foldl scanStep initScan).out.reverse

/-- wrap_if_needed: a dict without a json key but with all four report
fields is wrapped as a one-key json object; everything else is
returned unchanged. -/
def wrap_if_needed (obj : JVal) : JVal :=
  match obj with
  | JVal.jobj kvs =>
    if kvs.any (fun p => p.1 == "json") then obj
    else if (["story", "coaching", "highlights", "metrics"]).all
        (fun k => kvs.any (fun p => p.1 == k)) then
      JVal.jobj [("json", obj)]
    else obj
  | _ => obj

/-- naive_json_repair: extract and strip; on an empty fragment fail;
close an odd quote; append the missing closing brackets/braces in both
orders, returning the first order that parses.  Nat subtraction is
Python's max(0, opens - closes). -/
def naive_json_repair (trunc : String) : Option JVal :=
  let cand0 := pyStrip (extract_top_level_json trunc)
  if cand0.data = [] then none
  else
    let cand := if cand0.data.count '"' % 2 = 1 then cand0 ++ "\"" else cand0
    let close_braces := cand.data.count '{' - cand.data.count '}'
    let close_brackets := cand.data.count '[' - cand.data.count ']'
    let cand1 := cand ++ String.mk (List.replicate close_brackets ']')
      ++ String.mk (List.replicate close_braces '}')
    match json_loads cand1 with
    | some v => some v
    | none =>
      let cand2 := cand ++ String.mk (List.replicate close_braces '}')
        ++ String.mk (List.replicate close_brackets ']')
      json_loads cand2

/-- Membership of a key in a parsed object ("json" in obj). -/
def jhasKey (obj : JVal) (k : String) : Bool :=
  match obj with
  | JVal.jobj kvs => kvs.any (fun p => p.1 == k)
  | _ => false

/-- dict.get on a parsed object's entries. -/
def jlookup (kvs : List (String × JVal)) (k : String) : Option JVal :=
  match kvs.find? (fun p => p.1 == k) with
  | some p => some p.2
  | none => none

/-- The root used for scoring: obj.get of json with obj as the default
when obj is a dict, the empty dict otherwise. -/
def jscoreRoot (obj : JVal) : JVal :=
  match obj with
  | JVal.jobj kvs =>
    match jlookup kvs "json" with
    | some r => r
    | none => obj
  | _ => JVal.jobj []

/-- The stage-3 candidate score: +2 for a json key, +1 for each report
field present in the root. -/
def jscore (obj : JVal) : Int :=
  (if jhasKey obj "json" then 2 else 0) +
  (match jscoreRoot obj with
   | JVal.jobj rk =>
     (((["story", "coaching", "highlights", "metrics"]).filter
       (fun k => rk.any (fun p => p.1 == k))).length : Int)
   | _ => 0)

/-- Python truthiness of a parsed JSON value. -/
def jTruthy (v : JVal) : Bool :=
  match v with
  | JVal.jnull => false
  | JVal.jbool b => b
  | JVal.jnum m _ => !(m == 0)
  | JVal.jstr s => !(s == "")
  | JVal.jnan => true
  | JVal.jinf _ => true
  | JVal.jarr l => !l.isEmpty
  | JVal.jobj kvs => !kvs.isEmpty

/-- The stage-3 loop: parse each candidate, normalize, keep the first
candidate whose score strictly exceeds the best so far (initially -1). -/
def pickLoop : List String → Option JVal → Int → Option JVal
  | [], best, _ => best
  | c :: rest, best, bs =>
    match json_loads c with
    | none => pickLoop rest best bs
    | some o =>
      let o2 := wrap_if_needed o
      if jscore o2 > bs then pickLoop rest (some o2) (jscore o2)
      else pickLoop rest best bs

/-- Stage 3 of try_parse_or_coerce as it contributes to the ladder: the
loop's best candidate, delivered only when truthy (the source guards
the return with "if best", so a falsy best falls through to stage 4). -/
def scoreAndPick (cands : List String) : Option JVal :=
  match pickLoop cands none (-1) with
  | some b => if jTruthy b then some b else none
  | none => none

/-- try_parse_or_coerce: direct parse, extracted-block parse, scored
multi-candidate pick, then naive repair; the first three stages
normalize with wrap_if_needed, and failure of all four yields none. -/
def try_parse_or_coerce (raw_text : String) : Option JVal :=
  match json_loads raw_text with
  | some obj => some (wrap_if_needed obj)
  | none =>
    match json_loads (extract_top_level_json raw_text) with
    | some obj => some (wrap_if_needed obj)
    | none =>
      match scoreAndPick (find_all_top_level_json raw_text) with
      | some best => some best
      | none => naive_json_repair raw_text

/-- An event record as consumed by shrink_events: the four fields the
function reads via .get (an absent field and a null field both read as
none), plus the remaining payload (meta and any other fields), which
shrink_events never inspects but which distinguishes events with equal
keys. -/
structure Event where
  ts : Option String
  actor : Option String
  action : Option String
  target : Option String
  meta : List (String × String)
deriving DecidableEq

/-- Whether an action value lies in the protected set. -/
def actionProtected (a : Option String) : Bool :=
  match a with
  | some s =>
    s == "match_start" || s == "match_end" || s == "plant" || s == "defuse"
  | none => false

/-- e.get of action in the protected tuple. -/
def isProtected (e : Event) : Bool := actionProtected e.action

/-- The de-duplication key (ts, actor, action, target). -/
def evKey (e : Event) :
    Option String × Option String × Option String × Option String :=
  (e.ts, e.actor, e.action, e.target)

/-- First-occurrence de-duplication by evKey with an explicit seen set. -/
def dedupGo : List Event →
    List (Option String × Option String × Option String × Option String) →
    List Event
  | [], _ => []
  | e :: rest, seen =>
    if evKey e ∈ seen then dedupGo rest seen
    else e :: dedupGo rest (evKey e :: seen)

/-- Code-point-wise lexicographic string order, as Python compares
strings. -/
def charListLe : List Char → List Char → Bool
  | [], _ => true
  | _ :: _, [] => false
  | a :: as_, b :: bs =>
    if a = b then charListLe as_ bs else decide (a < b)

/-- String comparison for the sort key. -/
def pyStrLe (a b : String) : Bool := charListLe a.data b.data

/-- The sort key x.get of ts or "Z": a missing ts and an empty ts are
both falsy and become the string Z. -/
def sortKeyStr (e : Event) : String :=
  match e.ts with
  | some t => if t = "" then "Z" else t
  | none => "Z"

/-- Stable insertion for the ascending sort: an element goes after
every element whose key is <= its own, matching the stability of
Python's sort. -/
def insertByKey (e : Event) : List Event → List Event
  | [] => [e]
  | x :: xs =>
    if pyStrLe (sortKeyStr x) (sortKeyStr e) then x :: insertByKey e xs
    else e :: x :: xs

/-- list.sort with key ts-or-Z: a stable ascending sort. -/
def pySortByTs (l : List Event) : List Event :=
  l.foldl (fun acc e => insertByKey e acc) []

/-- The tail slice events[-max_items//2:]: Python floor-divides the
negated count, so the slice keeps the last ceil(max_items/2) events;
for max_items = 0 the index is -0 = 0 and the slice is the whole
list. -/
def pyNegHalfSlice (events : List Event) (max_items : Nat) : List Event :=
  if (max_items + 1) / 2 = 0 then events
  else events.drop (events.length - (max_items + 1) / 2)

/-- The concatenation head ++ protected ++ tail built by shrink_events
in its long-input branch. -/
def shrinkMerged (events : List Event) (max_items : Nat) : List Event :=
  events.take (max_items / 2) ++ events.filter isProtected
    ++ pyNegHalfSlice events max_items

/-- The de-duplicated, ts-sorted intermediate list of shrink_events. -/
def shrinkSorted (events : List Event) (max_items : Nat) : List Event :=
  pySortByTs (dedupGo (shrinkMerged events max_items) [])

/-- shrink_events: identity on short inputs; otherwise head/tail
sampling plus protected events, de-duplicated, sorted, truncated. -/
def shrink_events (events : List Event) (max_items : Nat) : List Event :=
  if events.length ≤ max_items then events
  else (shrinkSorted events max_items).take max_items

/-- Substring containment, as the in operator on Python strings. -/
def listHasPre : List Char → List Char → Bool
  | [], _ => true
  | _ :: _, [] => false
  | a :: as_, b :: bs => a == b && listHasPre as_ bs

/-- Whether pat occurs as a contiguous substring. -/
def listHasSub (pat : List Char) : List Char → Bool
  | [] => listHasPre pat []
  | l@(_ :: rest) => listHasPre pat l || listHasSub pat rest

/-- "pro" in curr_model. -/
def proTier (m : String) : Bool := listHasSub "pro".data m.data

/-- The fallback model identifier. -/
def flashModel : String := "gemini-1.5-flash"

/-- The outcome of one generate_content attempt, supplied externally:
a text response (an empty text raises the same way any other in-try
error does), a quota-exceeded signal with its optional suggested
delay, or any other exception. -/
inductive CallOutcome where
  | ok : String → CallOutcome
  | quota : Option Nat → CallOutcome
  | err : CallOutcome

/-- How one call of the retry loop ends. -/
inductive RetryResult where
  | success : String → RetryResult
  | raised : RetryResult
  | exhausted : RetryResult

/-- The retry loop of call_gemini_json_with_retry, driven by the stream
of per-attempt outcomes.  Returns the models used, one per attempt, and
how the loop ended.  Fuel counts the remaining attempts (attempt <=
max_retries gives max_retries + 1 of them); an empty text raises inside
the try and is handled by the generic except: downgrade when the
current model contains "pro", re-raise otherwise; a quota error sleeps
(not modelled) and downgrades when on a "pro" model. -/
def retryRun (outs : Nat → CallOutcome) :
    Nat → String → Nat → List String × RetryResult
  | 0, _, _ => ([], RetryResult.exhausted)
  | fuel + 1, curr, i =>
    match outs i with
    | CallOutcome.ok t =>
      if t = "" then
        if proTier curr then
          let r := retryRun outs fuel flashModel (i + 1)
          (curr :: r.1, r.2)
        else ([curr], RetryResult.raised)
      else ([curr], RetryResult.success t)
    | CallOutcome.quota _ =>
      let r := retryRun outs fuel (if proTier curr then flashModel else curr) (i + 1)
      (curr :: r.1, r.2)
    | CallOutcome.err =>
      if proTier curr then
        let r := retryRun outs fuel flashModel (i + 1)
        (curr :: r.1, r.2)
      else ([curr], RetryResult.raised)

/-- One invocation of call_gemini_json_with_retry with the given
initial model and max_retries, under the given attempt outcomes. -/
def call_gemini_json_with_retry (outs : Nat → CallOutcome)
    (model_name : String) (max_retries : Nat) : List String × RetryResult :=
  retryRun outs (max_retries + 1) model_name 0

/-- The sequence of model identifiers used across attempts of one
invocation. -/
def retryModelTrace (outs : Nat → CallOutcome) (model_name : String)
    (max_retries : Nat) : List String :=
  (call_gemini_json_with_retry outs model_name max_retries).1

/-! Reference definitions transcribed from the specification's words,
to be compared against the source embeddings above. -/

/-- From the spec, the repair steps applied to a fragment: close an odd
quote; closeBraces and closeBrackets as max(0, opens - closes) over the
current fragment; parse with brackets-first closers, then with
braces-first closers; fail if both fail. -/
def repairSpecSteps (frag : String) : Option JVal :=
  let frag1 := if frag.data.count '"' % 2 = 1 then frag ++ "\"" else frag
  let closeBraces : Nat :=
    ((frag1.data.count '{' : Int) - (frag1.data.count '}' : Int)).toNat
  let closeBrackets : Nat :=
    ((frag1.data.count '[' : Int) - (frag1.data.count ']' : Int)).toNat
  match json_loads (frag1 ++ String.mk (List.replicate closeBrackets ']')
      ++ String.mk (List.replicate closeBraces '}')) with
  | some v => some v
  | none =>
    json_loads (frag1 ++ String.mk (List.replicate closeBraces '}')
      ++ String.mk (List.replicate closeBrackets ']'))

/-- From the spec, the maximum score among parsed candidates (with the
loop's initial best score -1 for an empty list). -/
def maxScoreOf (objs : List JVal) : Int :=
  objs.foldr (fun o m => max (jscore o) m) (-1)

/-- From the spec, scoreAndPick: parse each candidate (skipping parse
failures), normalize, and return the first candidate attaining the
maximum score, or none if no candidate parsed. -/
def scoreAndPickSpec (cands : List String) : Option JVal :=
  let objs := cands.filterMap (fun c => (json_loads c).map wrap_if_needed)
  objs.find? (fun o => jscore o == maxScoreOf objs)

/-- From the claim, the last maxItems/2 events. -/
def lastHalfFloor (events : List Event) (max_items : Nat) : List Event :=
  events.drop (events.length - max_items / 2)

/-- From the claim, ascending by ts with an absent ts last. -/
def refTsLe (a b : Event) : Bool :=
  match a.ts, b.ts with
  | _, none => true
  | none, some _ => false
  | some x, some y => pyStrLe x y

/-- Stable insertion for the claim's reference sort. -/
def refInsert (e : Event) : List Event → List Event
  | [] => [e]
  | x :: xs =>
    if refTsLe x e then x :: refInsert e xs else e :: x :: xs

/-- The claim's reference sort: stable ascending, absent ts last. -/
def refSortNoneLast (l : List Event) : List Event :=
  l.foldl (fun acc e => refInsert e acc) []

/-- From the claim (C3), the reference computation for a long input:
first maxItems/2, all protected, last maxItems/2; de-duplicate by key
keeping the first occurrence; sort with absent ts last; truncate. -/
def shrinkRef (events : List Event) (max_items : Nat) : List Event :=
  (refSortNoneLast (dedupGo (events.take (max_items / 2)
    ++ events.filter isProtected ++ lastHalfFloor events max_items) [])).take
    max_items

/-- The amended tail count: the last ceil(maxItems/2) events, where a
zero count denotes Python's full slice (the index -0). -/
def lastCeilHalf (events : List Event) (max_items : Nat) : List Event :=
  if (max_items + 1) / 2 = 0 then events
  else events.drop (events.length - (max_items + 1) / 2)

/-- The amended sort key: ts when present and non-empty, otherwise the
string Z, compared code-point-wise. -/
def zKeyAmended (e : Event) : String :=
  match e.ts with
  | some t => if t = "" then "Z" else t
  | none => "Z"

/-- Stable insertion for the amended reference sort. -/
def amendInsert (e : Event) : List Event → List Event
  | [] => [e]
  | x :: xs =>
    if pyStrLe (zKeyAmended x) (zKeyAmended e) then x :: amendInsert e xs
    else e :: x :: xs

/-- The amended reference sort. -/
def amendSort (l : List Event) : List Event :=
  l.foldl (fun acc e => amendInsert e acc) []

/-- The amended reference computation for a long input. -/
def shrinkRefAmended (events : List Event) (max_items : Nat) : List Event :=
  (amendSort (dedupGo (events.take (max_items / 2)
    ++ events.filter isProtected ++ lastCeilHalf events max_items) [])).take
    max_items

/-- The stage-3 loop restricted to already-parsed, normalized
candidates (the bridge between pickLoop and the claim's description). -/
def pickObjs : List JVal → Option JVal → Int → Option JVal
  | [], best, _ => best
  | o :: rest, best, bs =>
    if jscore o > bs then pickObjs rest (some o) (jscore o)
    else pickObjs rest best bs

/-- Keep-first maximum over a list, seeded with one element: the
element the loop holds after scanning t starting from best b. -/
def keepMax (b : JVal) (t : List JVal) : JVal :=
  t.foldl (fun acc o => if jscore o > jscore acc then o else acc) b

/-- Sample events for concrete witnesses and counterexamples. -/
def evA : Event := ⟨some "1", some "A", some "match_start", some "S", []⟩

/-- A protected plant event. -/
def evB : Event := ⟨some "2", some "B", some "plant", some "S", []⟩

/-- A protected defuse event. -/
def evC : Event := ⟨some "3", some "C", some "defuse", some "S", []⟩

/-- An unprotected kill event. -/
def evK1 : Event := ⟨some "1", some "A", some "kill", some "B", []⟩

/-- A second unprotected kill event. -/
def evK2 : Event := ⟨some "2", some "C", some "kill", some "D", []⟩

/-! Helper lemmas about shrink_events. -/

/-- shrink_events is the identity on inputs within the bound. -/
theorem shrink_events_of_le (l : List Event) (m : Nat) (h : l.length ≤ m) :
    shrink_events l m = l := by
  unfold shrink_events
  exact if_pos h

/-- The output of shrink_events never exceeds the bound. -/
theorem shrink_events_length_le (events : List Event) (m : Nat) :
    (shrink_events events m).length ≤ m := by
  unfold shrink_events
  split
  · assumption
  · rw [List.length_take]
    exact min_le_left _ _

/-- De-duplication only selects from the input. -/
theorem dedupGo_subset : ∀ (l : List Event) seen (x : Event),
    x ∈ dedupGo l seen → x ∈ l := by
  intro l
  induction l with
  | nil => intro seen x hx; cases hx
  | cons a rest ih =>
    intro seen x hx
    unfold dedupGo at hx
    split at hx
    · exact List.mem_cons_of_mem _ (ih _ _ hx)
    · rcases List.mem_cons.mp hx with rfl | hx'
      · exact List.mem_cons_self _ _
      · exact List.mem_cons_of_mem _ (ih _ _ hx')

/-- Membership through stable insertion. -/
theorem insertByKey_mem (e x : Event) :
    ∀ l, x ∈ insertByKey e l ↔ x = e ∨ x ∈ l := by
  intro l
  induction l with
  | nil => simp [insertByKey]
  | cons a rest ih =>
    unfold insertByKey
    split
    · rw [List.mem_cons, ih, List.mem_cons]
      tauto
    · exact List.mem_cons

/-- Membership through the fold of insertions. -/
theorem pySort_fold_mem (x : Event) :
    ∀ (l acc : List Event),
      x ∈ List.foldl (fun a e => insertByKey e a) acc l ↔ x ∈ acc ∨ x ∈ l := by
  intro l
  induction l with
  | nil => simp
  | cons a rest ih =>
    intro acc
    rw [List.foldl_cons, ih, insertByKey_mem, List.mem_cons]
    tauto

/-- The sort is a permutation as far as membership goes. -/
theorem pySortByTs_mem (l : List Event) (x : Event) :
    x ∈ pySortByTs l ↔ x ∈ l := by
  unfold pySortByTs
  rw [pySort_fold_mem]
  simp

/-- Every input event has a key-representative in the de-duplicated
list (unless its key was already seen). -/
theorem dedup_rep : ∀ (l : List Event) seen (x : Event), x ∈ l →
    evKey x ∈ seen ∨ ∃ y, y ∈ dedupGo l seen ∧ evKey y = evKey x := by
  intro l
  induction l with
  | nil => intro seen x hx; cases hx
  | cons a rest ih =>
    intro seen x hx
    unfold dedupGo
    by_cases ha : evKey a ∈ seen
    · rw [if_pos ha]
      rcases List.mem_cons.mp hx with rfl | hx'
      · left; exact ha
      · exact ih seen x hx'
    · rw [if_neg ha]
      rcases List.mem_cons.mp hx with rfl | hx'
      · right; exact ⟨x, List.mem_cons_self _ _, rfl⟩
      · rcases ih (evKey a :: seen) x hx' with hs | ⟨y, hy, hk⟩
        · rcases List.mem_cons.mp hs with heq | hs'
          · right; exact ⟨a, List.mem_cons_self _ _, heq.symm⟩
          · left; exact hs'
        · right; exact ⟨y, List.mem_cons_of_mem _ hy, hk⟩

/-- Claim C7: shrink_events is idempotent: applying it twice with the
same bound gives the same result as applying it once. -/
theorem shrink_events_idempotent (events : List Event) (m : Nat) :
    shrink_events (shrink_events events m) m = shrink_events events m :=
  shrink_events_of_le _ _ (shrink_events_length_le events m)

/-- Claim C8: every event of the output of shrink_events is an event of
the input; shrink only selects, de-duplicates, reorders and truncates. -/
theorem shrink_events_subset (events : List Event) (m : Nat) (e : Event)
    (h : e ∈ shrink_events events m) : e ∈ events := by
  unfold shrink_events at h
  split at h
  · exact h
  · have h1 : e ∈ shrinkSorted events m := (List.take_sublist _ _).subset h
    unfold shrinkSorted at h1
    rw [pySortByTs_mem] at h1
    have h2 := dedupGo_subset _ _ _ h1
    unfold shrinkMerged at h2
    rcases List.mem_append.mp h2 with h3 | h3
    · rcases List.mem_append.mp h3 with h4 | h4
      · exact (List.take_sublist _ _).subset h4
      · exact (List.filter_sublist _).subset h4
    · unfold pyNegHalfSlice at h3
      split at h3
      · exact h3
      · exact (List.drop_sublist _ _).subset h3

/-- Witness for C8 at a concrete input. -/
theorem shrink_events_subset_witness : evA ∈ [evA] :=
  shrink_events_subset [evA] 1 evA (by decide)

/-- Counterexample to C2 as stated: a protected defuse event of the
input is missing from the output because the final truncation to
maxItems drops it. -/
theorem shrink_drops_protected_counterexample :
    evC ∈ [evA, evB, evC] ∧ isProtected evC = true ∧
    evC ∉ shrink_events [evA, evB, evC] 2 :=
  ⟨by decide, by decide, by decide⟩

/-- Claim C2 amended: a protected event always survives into the
de-duplicated sorted intermediate list up to key-equivalence, and the
output is the first maxItems of that list, so a protected event beyond
that bound (or preceded by an event with the same key) is dropped. -/
theorem shrink_protected_representative (events : List Event) (m : Nat)
    (e : Event) (he : e ∈ events) (hp : isProtected e = true) :
    (events.length ≤ m → e ∈ shrink_events events m) ∧
    (m < events.length →
      shrink_events events m = (shrinkSorted events m).take m ∧
      ∃ x, x ∈ shrinkSorted events m ∧ evKey x = evKey e ∧
        isProtected x = true) := by
  constructor
  · intro h
    rw [shrink_events_of_le events m h]
    exact he
  · intro h
    have hne : ¬(events.length ≤ m) := by omega
    refine ⟨by unfold shrink_events; rw [if_neg hne], ?_⟩
    have hmem : e ∈ shrinkMerged events m := by
      unfold shrinkMerged
      exact List.mem_append.mpr (Or.inl (List.mem_append.mpr
        (Or.inr (List.mem_filter.mpr ⟨he, hp⟩))))
    rcases dedup_rep (shrinkMerged events m) [] e hmem with h0 | ⟨y, hy, hk⟩
    · cases h0
    · refine ⟨y, ?_, hk, ?_⟩
      · unfold shrinkSorted
        rw [pySortByTs_mem]
        exact hy
      · have hact : y.action = e.action := by
          have := congrArg (fun k => k.2.2.1) hk
          simpa [evKey] using this
        show actionProtected y.action = true
        rw [hact]
        exact hp

/-- Witness for the amended C2 at a concrete input. -/
theorem shrink_protected_representative_witness :
    evA ∈ shrink_events [evA] 1 :=
  (shrink_protected_representative [evA] 1 evA (by decide) (by decide)).1
    (by decide)

/-! Claim C3: the reference computation. -/

/-- The amended sort key coincides with the source's ts-or-Z key. -/
theorem zKeyAmended_eq (e : Event) : zKeyAmended e = sortKeyStr e := rfl

/-- The amended stable insertion coincides with the source's. -/
theorem amendInsert_eq (e : Event) :
    ∀ l, amendInsert e l = insertByKey e l := by
  intro l
  induction l with
  | nil => rfl
  | cons x xs ih =>
    unfold amendInsert insertByKey
    rw [zKeyAmended_eq, zKeyAmended_eq, ih]

/-- The amended sort coincides with the source's sort. -/
theorem amendSort_eq (l : List Event) : amendSort l = pySortByTs l := by
  unfold amendSort pySortByTs
  have h : (fun (acc : List Event) (e : Event) => amendInsert e acc)
      = fun acc e => insertByKey e acc := by
    funext acc e
    exact amendInsert_eq e acc
  rw [h]

/-- Counterexample to C3 as stated: with maxItems = 1 the code keeps
the last ceil(1/2) = 1 event while the claim's reference keeps the last
1/2 = 0 events, so the two computations disagree on a two-event
input. -/
theorem shrinkRef_counterexample :
    1 < ([evK1, evK2] : List Event).length ∧
    shrink_events [evK1, evK2] 1 ≠ shrinkRef [evK1, evK2] 1 :=
  ⟨by decide, by decide⟩

/-- Claim C3 amended: for inputs longer than maxItems, shrink_events
equals the reference computation with the tail taken as the last
ceil(maxItems/2) events (a zero count denoting the full slice) and the
sort key being ts-or-the-string-Z compared code-point-wise. -/
theorem shrink_events_eq_reference (events : List Event) (m : Nat)
    (h : m < events.length) :
    shrink_events events m = shrinkRefAmended events m := by
  unfold shrink_events shrinkRefAmended
  rw [if_neg (by omega : ¬events.length ≤ m)]
  unfold shrinkSorted shrinkMerged
  rw [amendSort_eq]
  rfl

/-- Witness for the amended C3 at a concrete input. -/
theorem shrink_events_eq_reference_witness :
    shrink_events [evK1, evK2] 1 = shrinkRefAmended [evK1, evK2] 1 :=
  shrink_events_eq_reference [evK1, evK2] 1 (by decide)

/-! Claims C4 and C9: the repair heuristic. -/

/-- The source repair equals the spec's steps applied to the
extracted, stripped fragment (shared by the C4 and C9 arguments). -/
theorem repair_spec_helper (s : String) :
    naive_json_repair s = repairSpecSteps (pyStrip (extract_top_level_json s)) := by
  unfold naive_json_repair repairSpecSteps
  by_cases h : (pyStrip (extract_top_level_json s)).data = []
  · rw [if_pos h]
    rw [String.ext h]
    rfl
  · rw [if_neg h]
    simp only [Int.toNat_sub]

/-- Any success of the spec's repair steps parses the fragment plus an
optional quote plus closers only. -/
theorem repairSpecSteps_shape (frag : String) (v : JVal)
    (h : repairSpecSteps frag = some v) :
    ∃ q suf : String, (q = "" ∨ q = "\"") ∧
      (∀ c ∈ suf.data, c = ']' ∨ c = '}') ∧
      json_loads ((frag ++ q) ++ suf) = some v := by
  unfold repairSpecSteps at h
  dsimp only at h
  set frag1 := if frag.data.count '"' % 2 = 1 then frag ++ "\"" else frag
    with hfrag1
  set cb : Nat :=
    ((frag1.data.count '{' : Int) - (frag1.data.count '}' : Int)).toNat with hcb
  set ck : Nat :=
    ((frag1.data.count '[' : Int) - (frag1.data.count ']' : Int)).toNat with hck
  have hq : ∃ q : String, (q = "" ∨ q = "\"") ∧ frag1 = frag ++ q := by
    rw [hfrag1]
    split
    · exact ⟨"\"", Or.inr rfl, rfl⟩
    · exact ⟨"", Or.inl rfl, (String.append_empty frag).symm⟩
  obtain ⟨q, hqor, hqeq⟩ := hq
  have hsuf : ∀ a b : Nat,
      ∀ c ∈ (String.mk (List.replicate a ']') ++ String.mk (List.replicate b '}')).data,
        c = ']' ∨ c = '}' := by
    intro a b c hc
    rw [String.data_append] at hc
    rcases List.mem_append.mp hc with hm | hm
    · exact Or.inl (List.eq_of_mem_replicate hm)
    · exact Or.inr (List.eq_of_mem_replicate hm)
  split at h
  · refine ⟨q, String.mk (List.replicate ck ']') ++ String.mk (List.replicate cb '}'),
      hqor, hsuf ck cb, ?_⟩
    rw [← hqeq, ← String.append_assoc]
    rename_i v1 heq
    rw [heq]
    exact h
  · refine ⟨q, String.mk (List.replicate cb '}') ++ String.mk (List.replicate ck ']'),
      hqor, ?_, ?_⟩
    · intro c hc
      rw [String.data_append] at hc
      rcases List.mem_append.mp hc with hm | hm
      · exact Or.inr (List.eq_of_mem_replicate hm)
      · exact Or.inl (List.eq_of_mem_replicate hm)
    · rw [← hqeq, ← String.append_assoc]
      exact h

/-- Claim C4: naive_json_repair equals, on every input, the spec's
repair steps (odd-quote closing, max(0, opens - closes) closer counts
computed over the quote-closed fragment, brackets-first then
braces-first parse attempts) applied to the extracted, stripped
fragment. -/
theorem naive_json_repair_matches_spec (s : String) :
    naive_json_repair s = repairSpecSteps (pyStrip (extract_top_level_json s)) :=
  repair_spec_helper s

/-- Claim C9: a successful repair parses exactly the extracted,
stripped fragment followed by at most one closing quote and then only
closing brackets and braces; no character of the fragment is deleted,
reordered or altered. -/
theorem naive_json_repair_appends_only (s : String) (v : JVal)
    (h : naive_json_repair s = some v) :
    ∃ q suf : String, (q = "" ∨ q = "\"") ∧
      (∀ c ∈ suf.data, c = ']' ∨ c = '}') ∧
      json_loads ((pyStrip (extract_top_level_json s) ++ q) ++ suf) = some v := by
  rw [repair_spec_helper s] at h
  exact repairSpecSteps_shape _ v h

/-- Witness for C9 at a concrete truncated fragment. -/
theorem naive_json_repair_appends_only_witness :
    ∃ q suf : String, (q = "" ∨ q = "\"") ∧
      (∀ c ∈ suf.data, c = ']' ∨ c = '}') ∧
      json_loads ((pyStrip (extract_top_level_json "\x7b\"a\": [1") ++ q) ++ suf)
        = some (JVal.jobj [("a", JVal.jarr [JVal.jnum 1 0])]) :=
  naive_json_repair_appends_only "\x7b\"a\": [1"
    (JVal.jobj [("a", JVal.jarr [JVal.jnum 1 0])]) rfl

/-! Claim C1: what the ladder returns. -/

/-- Counterexample to C1 as stated: the raw text consisting of an empty
object parses directly, the ladder returns it as its result, and that
result has no json key (so a stage's success does end the escalation
even without a json key, and the returned value is not a Wrapper). -/
theorem try_parse_jsonless_counterexample :
    try_parse_or_coerce "\x7b\x7d" = some (JVal.jobj []) ∧
    jhasKey (JVal.jobj []) "json" = false :=
  ⟨rfl, rfl⟩

/-- Claim C1 amended: the ladder never checks for a json key.  Each of
the four stages, reached when all earlier stages failed, ends the
escalation with exactly its own result regardless of any json key:
stages 1 and 2 return the wrap_if_needed-normalized parse, stage 3
returns its best candidate only when that candidate is truthy (a parse
success with a falsy best does not end the escalation and is a stage-3
failure here), and stage 4 returns the repaired parse without
normalization; the json-presence check belongs to the caller, not to
the ladder. -/
theorem try_parse_stages_characterization (raw : String) :
    (∀ obj, json_loads raw = some obj →
      try_parse_or_coerce raw = some (wrap_if_needed obj)) ∧
    (json_loads raw = none →
      ∀ obj, json_loads (extract_top_level_json raw) = some obj →
        try_parse_or_coerce raw = some (wrap_if_needed obj)) ∧
    (json_loads raw = none →
      json_loads (extract_top_level_json raw) = none →
        ∀ b, scoreAndPick (find_all_top_level_json raw) = some b →
          try_parse_or_coerce raw = some b) ∧
    (json_loads raw = none →
      json_loads (extract_top_level_json raw) = none →
        scoreAndPick (find_all_top_level_json raw) = none →
          try_parse_or_coerce raw = naive_json_repair raw) := by
  refine ⟨?_, ?_, ?_, ?_⟩
  · intro obj h
    unfold try_parse_or_coerce
    rw [h]
  · intro h1 obj h2
    unfold try_parse_or_coerce
    rw [h1, h2]
  · intro h1 h2 b h3
    unfold try_parse_or_coerce
    rw [h1, h2, h3]
  · intro h1 h2 h3
    unfold try_parse_or_coerce
    rw [h1, h2, h3]

/-- Witness for the amended C1: a truncated fragment on which the
first three stages fail and the ladder hands back the stage-4 repair
result (un-normalized). -/
theorem try_parse_stages_characterization_witness :
    try_parse_or_coerce "\x7b\"a\": [1" = naive_json_repair "\x7b\"a\": [1" :=
  (try_parse_stages_characterization "\x7b\"a\": [1").2.2.2 rfl rfl rfl

/-! Claim C6: the multi-candidate scoring stage. -/

/-- Scores are non-negative. -/
theorem jscore_nonneg (o : JVal) : 0 ≤ jscore o := by
  unfold jscore
  have h1 : (0 : Int) ≤ if jhasKey o "json" then 2 else 0 := by
    split <;> norm_num
  have h2 : (0 : Int) ≤
      match jscoreRoot o with
      | JVal.jobj rk =>
        (((["story", "coaching", "highlights", "metrics"]).filter
          (fun k => rk.any (fun p => p.1 == k))).length : Int)
      | _ => 0 := by
    cases jscoreRoot o <;> simp
  exact add_nonneg h1 h2

/-- find? on a cons whose head satisfies the predicate. -/
theorem find?_cons_true (p : JVal → Bool) (a : JVal) (l : List JVal)
    (h : p a = true) : (a :: l).find? p = some a := by
  rw [List.find?_cons, h]

/-- find? on a cons whose head fails the predicate. -/
theorem find?_cons_false (p : JVal → Bool) (a : JVal) (l : List JVal)
    (h : p a = false) : (a :: l).find? p = l.find? p := by
  rw [List.find?_cons, h]

/-- The loop over candidate strings equals the loop over the parsed,
normalized candidates. -/
theorem pickLoop_eq_pickObjs :
    ∀ (cands : List String) (best : Option JVal) (bs : Int),
      pickLoop cands best bs =
        pickObjs (cands.filterMap (fun c => (json_loads c).map wrap_if_needed))
          best bs := by
  intro cands
  induction cands with
  | nil => intro best bs; rfl
  | cons c rest ih =>
    intro best bs
    rw [List.filterMap_cons]
    cases h : json_loads c with
    | none => simp only [pickLoop, h, Option.map_none']; exact ih best bs
    | some o =>
      simp only [pickLoop, h, Option.map_some', pickObjs]
      split
      · exact ih _ _
      · exact ih best bs

/-- Once the loop holds a best element, it computes the keep-first
maximum seeded with it. -/
theorem pickObjs_some :
    ∀ (t : List JVal) (b : JVal),
      pickObjs t (some b) (jscore b) = some (keepMax b t) := by
  intro t
  induction t with
  | nil => intro b; rfl
  | cons o t' ih =>
    intro b
    simp only [pickObjs, keepMax, List.foldl_cons]
    by_cases hc : jscore o > jscore b
    · rw [if_pos hc, if_pos hc]
      exact ih o
    · rw [if_neg hc, if_neg hc]
      exact ih b

/-- Entering the loop with no best and best score -1: the first parsed
candidate always takes over, after which the keep-first maximum is
computed. -/
theorem pickObjs_entry (l : List JVal) :
    pickObjs l none (-1) =
      match l with
      | [] => none
      | o :: t => some (keepMax o t) := by
  cases l with
  | nil => rfl
  | cons o t =>
    simp only [pickObjs]
    rw [if_pos (by have := jscore_nonneg o; omega)]
    exact pickObjs_some t o

/-- maxScoreOf unfolds on cons. -/
theorem maxScoreOf_cons (o : JVal) (l : List JVal) :
    maxScoreOf (o :: l) = max (jscore o) (maxScoreOf l) := rfl

/-- The head's score is bounded by the maximum. -/
theorem le_maxScoreOf_head (b : JVal) (t : List JVal) :
    jscore b ≤ maxScoreOf (b :: t) := by
  rw [maxScoreOf_cons]
  exact le_max_left _ _

/-- The first maximum-score element of a non-empty list is the
keep-first maximum of the loop. -/
theorem find?_max_eq_keepMax :
    ∀ (t : List JVal) (b : JVal),
      (b :: t).find? (fun o => jscore o == maxScoreOf (b :: t))
        = some (keepMax b t) := by
  intro t
  induction t with
  | nil =>
    intro b
    have hm : maxScoreOf [b] = jscore b := by
      rw [maxScoreOf_cons]
      exact max_eq_left (by have := jscore_nonneg b; unfold maxScoreOf; simp; omega)
    simp [List.find?, hm, keepMax]
  | cons o t' ih =>
    intro b
    by_cases hc : jscore b < jscore o
    · have hm : maxScoreOf (b :: o :: t') = maxScoreOf (o :: t') := by
        rw [maxScoreOf_cons]
        exact max_eq_right (le_trans (le_of_lt hc) (le_maxScoreOf_head o t'))
      have hb : (jscore b == maxScoreOf (b :: o :: t')) = false := by
        rw [hm]
        have h2 := le_maxScoreOf_head o t'
        simp only [beq_eq_false_iff_ne, ne_eq]
        omega
      rw [find?_cons_false (fun x => jscore x == maxScoreOf (b :: o :: t'))
        b (o :: t') hb, hm]
      have hk : keepMax b (o :: t') = keepMax o t' := by
        simp only [keepMax, List.foldl_cons, if_pos hc]
      rw [hk]
      exact ih o
    · push_neg at hc
      have hm : maxScoreOf (b :: o :: t') = maxScoreOf (b :: t') := by
        rw [maxScoreOf_cons, maxScoreOf_cons, maxScoreOf_cons, ← max_assoc,
          max_eq_left hc]
      have hk : keepMax b (o :: t') = keepMax b t' := by
        simp only [keepMax, List.foldl_cons, if_neg (not_lt.mpr hc)]
      by_cases hb : jscore b = maxScoreOf (b :: t')
      · have hb1 : (jscore b == maxScoreOf (b :: o :: t')) = true := by
          rw [hm]; simp [hb]
        have hb2 : (jscore b == maxScoreOf (b :: t')) = true := by simp [hb]
        rw [find?_cons_true (fun x => jscore x == maxScoreOf (b :: o :: t'))
          b (o :: t') hb1, hk]
        have h3 := ih b
        rw [find?_cons_true (fun x => jscore x == maxScoreOf (b :: t'))
          b t' hb2] at h3
        exact h3
      · have hb1 : (jscore b == maxScoreOf (b :: o :: t')) = false := by
          rw [hm]; simp [hb]
        have hb2 : (jscore b == maxScoreOf (b :: t')) = false := by simp [hb]
        have ho : (jscore o == maxScoreOf (b :: o :: t')) = false := by
          rw [hm]
          have h3 := le_maxScoreOf_head b t'
          simp only [beq_eq_false_iff_ne, ne_eq]
          intro hoe
          exact hb (by omega)
        rw [find?_cons_false (fun x => jscore x == maxScoreOf (b :: o :: t'))
          b (o :: t') hb1,
          find?_cons_false (fun x => jscore x == maxScoreOf (b :: o :: t'))
          o t' ho, hm, hk]
        have h3 := ih b
        rw [find?_cons_false (fun x => jscore x == maxScoreOf (b :: t'))
          b t' hb2] at h3
        exact h3

/-- Counterexample to C6 as stated: the single candidate consisting of
an empty object parses, yet the stage returns none, because the best
candidate is falsy (the source guards its return with "if best") and
the escalation continues to the repair stage. -/
theorem scoreAndPick_falsy_counterexample :
    json_loads "\x7b\x7d" = some (JVal.jobj []) ∧
    scoreAndPick ["\x7b\x7d"] = none :=
  ⟨rfl, rfl⟩

/-- Claim C6 amended: the stage returns the first parsed candidate
attaining the maximum score whenever that candidate is truthy; a falsy
best candidate (for example the empty object) is treated as a stage
failure even though a candidate parsed, and none is otherwise returned
exactly when no candidate parses. -/
theorem scoreAndPick_characterization (cands : List String) :
    scoreAndPick cands =
      (match scoreAndPickSpec cands with
       | none => none
       | some b => if jTruthy b then some b else none) ∧
    (scoreAndPickSpec cands = none ↔ ∀ c ∈ cands, json_loads c = none) := by
  have hspec : scoreAndPickSpec cands = pickLoop cands none (-1) := by
    unfold scoreAndPickSpec
    rw [pickLoop_eq_pickObjs, pickObjs_entry]
    cases h : cands.filterMap (fun c => (json_loads c).map wrap_if_needed) with
    | nil => simp [List.find?]
    | cons o t => exact find?_max_eq_keepMax t o
  constructor
  · unfold scoreAndPick
    rw [hspec]
    cases pickLoop cands none (-1) <;> rfl
  · rw [hspec, pickLoop_eq_pickObjs, pickObjs_entry]
    cases h : cands.filterMap (fun c => (json_loads c).map wrap_if_needed) with
    | nil =>
      constructor
      · intro _ c hc
        have h1 := List.filterMap_eq_nil_iff.mp h c hc
        cases hj : json_loads c with
        | none => rfl
        | some o => rw [hj] at h1; simp at h1
      · intro _
        rfl
    | cons o t =>
      constructor
      · intro habs
        simp at habs
      · intro hall
        exfalso
        have h0 : cands.filterMap (fun c => (json_loads c).map wrap_if_needed)
            = [] :=
          List.filterMap_eq_nil_iff.mpr (fun c hc => by rw [hall c hc]; rfl)
        rw [h] at h0
        cases h0

/-- Witness for the amended C6 at a concrete candidate list. -/
theorem scoreAndPick_characterization_witness :
    scoreAndPick ["\x7b\x7d"] =
      (match scoreAndPickSpec ["\x7b\x7d"] with
       | none => none
       | some b => if jTruthy b then some b else none) :=
  (scoreAndPick_characterization ["\x7b\x7d"]).1

/-! Claim C5: the retry loop's tier monotonicity. -/

/-- The flash identifier is not a pro-tier identifier. -/
theorem proTier_flash : proTier flashModel = false := by decide

/-- Once the loop runs on the flash model, every model it uses from
then on is the flash model. -/
theorem retryRun_flash_stays (outs : Nat → CallOutcome) :
    ∀ (f i : Nat) (m : String),
      m ∈ (retryRun outs f flashModel i).1 → m = flashModel := by
  intro f
  induction f with
  | zero => intro i m hm; cases hm
  | succ f ih =>
    intro i m hm
    cases houts : outs i with
    | ok t =>
      simp only [retryRun, houts, proTier_flash] at hm
      by_cases ht : t = ""
      · simp only [ht] at hm
        simp at hm
        exact hm
      · simp only [if_neg ht] at hm
        simp at hm
        exact hm
    | quota d =>
      simp only [retryRun, houts, proTier_flash] at hm
      simp at hm
      rcases hm with rfl | h0
      · rfl
      · exact ih (i + 1) m h0
    | err =>
      simp only [retryRun, houts, proTier_flash] at hm
      simp at hm
      exact hm

/-- One attempt either ends the loop with its own model as the last
trace entry, or prefixes the trace of the rest of the run. -/
theorem retryRun_cons (outs : Nat → CallOutcome) (f : Nat) (curr : String)
    (i : Nat) :
    (retryRun outs (f + 1) curr i).1 = [curr] ∨
    ∃ c2, (retryRun outs (f + 1) curr i).1
      = curr :: (retryRun outs f c2 (i + 1)).1 := by
  cases houts : outs i with
  | ok t =>
    by_cases ht : t = ""
    · by_cases hp : proTier curr
      · right; exact ⟨flashModel, by simp [retryRun, houts, ht, hp]⟩
      · left; simp [retryRun, houts, ht, hp]
    · left; simp [retryRun, houts, ht]
  | quota d =>
    right
    exact ⟨if proTier curr then flashModel else curr, by simp [retryRun, houts]⟩
  | err =>
    by_cases hp : proTier curr
    · right; exact ⟨flashModel, by simp [retryRun, houts, hp]⟩
    · left; simp [retryRun, houts, hp]

/-- Every suffix of the model trace starting at a used model is itself
the trace of a run starting from that model. -/
theorem retryRun_suffix (outs : Nat → CallOutcome) :
    ∀ (f : Nat) (curr : String) (i k : Nat) (m : String),
      ((retryRun outs f curr i).1).get? k = some m →
      ∃ f2 i2, ((retryRun outs f curr i).1).drop k = (retryRun outs f2 m i2).1 := by
  intro f
  induction f with
  | zero => intro curr i k m hm; simp [retryRun] at hm
  | succ f ih =>
    intro curr i k m hm
    rcases retryRun_cons outs f curr i with hc | ⟨c2, hc⟩
    · rw [hc] at hm ⊢
      cases k with
      | zero =>
        simp only [List.get?] at hm
        injection hm with hm
        subst hm
        exact ⟨f + 1, i, by rw [List.drop_zero, hc]⟩
      | succ k => simp at hm
    · rw [hc] at hm ⊢
      cases k with
      | zero =>
        simp only [List.get?] at hm
        injection hm with hm
        subst hm
        exact ⟨f + 1, i, by rw [List.drop_zero, hc]⟩
      | succ k =>
        simp only [List.get?] at hm
        obtain ⟨f2, i2, hdrop⟩ := ih c2 (i + 1) k m hm
        exact ⟨f2, i2, by rw [List.drop_succ_cons, hdrop]⟩

/-- The first attempt always runs on the caller-specified model. -/
theorem retryRun_head (outs : Nat → CallOutcome) (f : Nat) (curr : String)
    (i : Nat) : ((retryRun outs (f + 1) curr i).1).get? 0 = some curr := by
  rcases retryRun_cons outs f curr i with hc | ⟨c2, hc⟩ <;> rw [hc] <;> rfl

/-- Claim C5: within one invocation, the first attempt uses the
caller-specified model, and once some attempt runs on the flash tier
every later attempt also runs on the flash tier (never again on a
pro-tier model). -/
theorem retry_tier_monotone (outs : Nat → CallOutcome) (name : String)
    (maxR : Nat) :
    (retryModelTrace outs name maxR).get? 0 = some name ∧
    ∀ i j m, i ≤ j →
      (retryModelTrace outs name maxR).get? i = some flashModel →
      (retryModelTrace outs name maxR).get? j = some m →
      m = flashModel ∧ proTier m = false := by
  constructor
  · exact retryRun_head outs maxR name 0
  · intro i j m hij hi hj
    obtain ⟨f2, i2, hdrop⟩ :=
      retryRun_suffix outs (maxR + 1) name 0 i flashModel hi
    have hj2 : ((retryRun outs (maxR + 1) name 0).1.drop i).get? (j - i)
        = some m := by
      rw [List.get?_drop, show i + (j - i) = j from by omega]
      exact hj
    rw [hdrop] at hj2
    have hmem := List.get?_mem hj2
    have hm := retryRun_flash_stays outs f2 i2 m hmem
    exact ⟨hm, by rw [hm]; exact proTier_flash⟩

/-- Witness for C5: a pro-tier start, a quota error on the first
attempt, and the downgraded second attempt on the flash tier. -/
theorem retry_tier_monotone_witness :
    flashModel = flashModel ∧ proTier flashModel = false :=
  (retry_tier_monotone (fun _ => CallOutcome.quota none) "gemini-1.5-pro" 1).2
    1 1 flashModel (le_refl 1) rfl rfl

/-! Claim C10: the find_all scanner ignores a top-level closing brace. -/

/-- A closing brace at depth 0 leaves the scan state unchanged. -/
theorem scanStep_close_zero (st : ScanState) (h : st.depth = 0) :
    scanStep st '}' = st := by
  unfold scanStep
  rw [if_neg (by decide : ¬(('}' : Char) = '{')),
    if_pos (rfl : ('}' : Char) = '}'), if_pos h]

/-- Without backticks the fence substitution is the identity. -/
theorem removeTicksF_id : ∀ (fuel : Nat) (l : List Char),
    tickChar ∉ l → removeTicksF fuel l = l := by
  intro fuel
  induction fuel with
  | zero => intro l _; rfl
  | succ fuel ih =>
    intro l h
    cases l with
    | nil => rfl
    | cons c1 rest =>
      have hc : ¬(c1 = tickChar) := by
        intro he
        exact h (he ▸ List.mem_cons_self _ _)
      have hr : tickChar ∉ rest := fun hm => h (List.mem_cons_of_mem _ hm)
      simp only [removeTicksF, if_neg hc]
      rw [ih rest hr]

/-- Without backticks removeTicks is the identity. -/
theorem removeTicks_id (l : List Char) (h : tickChar ∉ l) :
    removeTicks l = l :=
  removeTicksF_id l.length l h

/-- Without backticks the replace pass is the identity. -/
theorem removeTicksOnlyF_id : ∀ (fuel : Nat) (l : List Char),
    tickChar ∉ l → removeTicksOnlyF fuel l = l := by
  intro fuel
  induction fuel with
  | zero => intro l _; rfl
  | succ fuel ih =>
    intro l h
    cases l with
    | nil => rfl
    | cons c1 rest =>
      have hc : ¬(c1 = tickChar) := by
        intro he
        exact h (he ▸ List.mem_cons_self _ _)
      have hr : tickChar ∉ rest := fun hm => h (List.mem_cons_of_mem _ hm)
      simp only [removeTicksOnlyF, if_neg hc]
      rw [ih rest hr]

/-- Without backticks removeTicksOnly is the identity. -/
theorem removeTicksOnly_id (l : List Char) (h : tickChar ∉ l) :
    removeTicksOnly l = l :=
  removeTicksOnlyF_id l.length l h

/-- The strip is the identity when the ends are non-whitespace (the
default ' ' makes the hypotheses also assert non-emptiness). -/
theorem pyStrip_eq_self (s : String) (h1 : pyIsWs (s.data.headD ' ') = false)
    (h2 : pyIsWs (s.data.getLastD ' ') = false) : pyStrip s = s := by
  obtain ⟨l⟩ := s
  cases l with
  | nil => exact absurd h1 (by decide)
  | cons c tl =>
    show String.mk _ = String.mk (c :: tl)
    apply congrArg String.mk
    have step1 : (c :: tl).dropWhile pyIsWs = c :: tl := by
      rw [List.dropWhile_cons, if_neg (by simp_all)]
    rw [step1]
    cases hr : (c :: tl).reverse with
    | nil => exact absurd (List.reverse_eq_nil_iff.mp hr) (by simp)
    | cons y ys =>
      have hy0 : (c :: tl).getLast? = some y := by
        rw [← List.head?_reverse, hr]
        rfl
      have hy : pyIsWs y = false := by
        rw [List.getLastD_eq_getLast?, hy0] at h2
        exact h2
      have step2 : List.dropWhile pyIsWs (y :: ys) = y :: ys := by
        rw [List.dropWhile_cons, if_neg (by simp [hy])]
      rw [step2, ← hr]
      exact List.reverse_reverse _

/-- The head default passes through a left factor. -/
theorem headD_append_left (l1 l2 : List Char) (d : Char) (h : l1 ≠ []) :
    (l1 ++ l2).headD d = l1.headD d := by
  cases l1 with
  | nil => exact absurd rfl h
  | cons a t => rfl

/-- For a non-empty list the getLastD default is irrelevant. -/
theorem getLastD_ne_nil (l : List Char) (d1 d2 : Char) (h : l ≠ []) :
    l.getLastD d1 = l.getLastD d2 := by
  cases l with
  | nil => exact absurd rfl h
  | cons a t => rw [List.getLastD_cons, List.getLastD_cons]

/-- The last default passes through to a non-empty right factor. -/
theorem getLastD_append_right (l1 l2 : List Char) (d : Char) (h : l2 ≠ []) :
    (l1 ++ l2).getLastD d = l2.getLastD d := by
  induction l1 generalizing d with
  | nil => rfl
  | cons a t ih =>
    rw [List.cons_append, List.getLastD_cons, ih a]
    exact getLastD_ne_nil l2 a d h

/-- Claim C10: the scanner's depth is floored at zero — a closing brace
read at depth 0 is ignored — so inserting an unmatched closing brace at
a position where the preceding text scans to depth 0 (with no code
fences around and non-whitespace ends, so stripping is unaffected)
leaves the candidate list unchanged. -/
theorem find_all_ignores_unmatched_close (u v : String)
    (hu : pyIsWs (u.data.headD ' ') = false)
    (hv : pyIsWs (v.data.getLastD ' ') = false)
    (htu : tickChar ∉ u.data) (htv : tickChar ∉ v.data)
    (hd : ((u.data).foldl scanStep initScan).depth = 0) :
    find_all_top_level_json (u ++ "\x7d" ++ v)
      = find_all_top_level_json (u ++ v) := by
  have hu_ne : u.data ≠ [] := by
    intro h
    rw [h] at hu
    exact absurd hu (by decide)
  have hv_ne : v.data ≠ [] := by
    intro h
    rw [h] at hv
    exact absurd hv (by decide)
  have hdata1 : (u ++ "\x7d" ++ v).data = u.data ++ '}' :: v.data := by
    rw [String.data_append, String.data_append]
    simp
  have hdata2 : (u ++ v).data = u.data ++ v.data := String.data_append u v
  have hstrip1 : pyStrip (u ++ "\x7d" ++ v) = u ++ "\x7d" ++ v := by
    apply pyStrip_eq_self
    · rw [hdata1, headD_append_left _ _ _ hu_ne]
      exact hu
    · rw [hdata1, getLastD_append_right _ _ _ (by simp)]
      rw [List.getLastD_cons]
      rw [getLastD_ne_nil _ _ ' ' hv_ne]
      exact hv
  have hstrip2 : pyStrip (u ++ v) = u ++ v := by
    apply pyStrip_eq_self
    · rw [hdata2, headD_append_left _ _ _ hu_ne]
      exact hu
    · rw [hdata2, getLastD_append_right _ _ _ hv_ne]
      exact hv
  have hticks1 : tickChar ∉ u.data ++ '}' :: v.data := by
    intro hmem
    rcases List.mem_append.mp hmem with h | h
    · exact htu h
    · rcases List.mem_cons.mp h with h | h
      · exact absurd h (by decide)
      · exact htv h
  have hticks2 : tickChar ∉ u.data ++ v.data := by
    intro hmem
    rcases List.mem_append.mp hmem with h | h
    · exact htu h
    · exact htv h
  unfold find_all_top_level_json
  rw [hstrip1, hstrip2, hdata1, hdata2,
    removeTicks_id _ hticks1, removeTicksOnly_id _ hticks1,
    removeTicks_id _ hticks2, removeTicksOnly_id _ hticks2,
    List.foldl_append, List.foldl_append, List.foldl_cons,
    scanStep_close_zero _ hd]

/-- Witness for C10: two balanced blocks with an unmatched closing
brace inserted between them. -/
theorem find_all_ignores_unmatched_close_witness :
    find_all_top_level_json ("\x7b\"a\":1\x7d" ++ "\x7d" ++ "\x7b\"b\":2\x7d")
      = find_all_top_level_json ("\x7b\"a\":1\x7d" ++ "\x7b\"b\":2\x7d") :=
  find_all_ignores_unmatched_close "\x7b\"a\":1\x7d" "\x7b\"b\":2\x7d"
    (by decide) (by decide) (by decide) (by decide) (by decide)

end ValCoach
